import Mathlib

/-!
Verification of `urxvt-kitty` (main.go) against its specification.

The program is modelled byte-for-byte at the level of Go's `string` type:
a Go string is a byte sequence, modelled here as `List Nat` (every string
appearing in the program and in the claims is ASCII, so `Char.toNat` of a
Lean character coincides with the Go byte value).
-/

namespace UrxvtKitty

/-- Bytes of an ASCII Lean string, modelling a Go string literal. -/
def kb (s : String) : List Nat :=
  s.data.map Char.toNat

/-- Test for `[0-9]` on a byte, as in the regex and in `hexToByte`. -/
def isDigit (b : Nat) : Bool :=
  48 ≤ b && b ≤ 57

/-- Test for `[a-fA-F0-9]` on a byte, as in the regex and in `hexToByte`. -/
def isHexByte (b : Nat) : Bool :=
  isDigit b || (97 ≤ b && b ≤ 102) || (65 ≤ b && b ≤ 70)

/-- The value `hexToByte` computes for a byte: the hex digit value for
`[0-9a-fA-F]`, and `0` for any other byte (the Go closure returns `0` after
setting `err` in that case; the partially computed channel value is produced
either way). -/
def hexVal (b : Nat) : Nat :=
  if 48 ≤ b ∧ b ≤ 57 then b - 48
  else if 97 ≤ b ∧ b ≤ 102 then b - 97 + 10
  else if 65 ≤ b ∧ b ≤ 70 then b - 65 + 10
  else 0

/-- Model of `image/color.RGBA`: four 8-bit channels, kept as `Nat` with explicit
`% 256` where Go's `uint8` arithmetic could wrap. -/
structure RGBA where
  r : Nat
  g : Nat
  b : Nat
  a : Nat
deriving DecidableEq, Repr

/-- Outcome of `hexToRGB`. Go returns `(color.RGBA, error)`; on error the
partially computed color is also returned, so the error constructor carries
it. `crash` models the run-time panic (`index out of range`) that `s[0]`
raises on the empty string before any check runs. -/
inductive HexResult where
  | ok (c : RGBA)
  | errInvalid (c : RGBA)
  | crash
deriving DecidableEq, Repr

/-- Whether a `HexResult` is the "invalid format" error return. -/
def isInvalidFormatError : HexResult → Bool
  | .errInvalid _ => true
  | _ => false

/-- Function `hexToRGB` from main.go. `c.A = 0xff` is set first; `s[0]` is read
before any length check (panic on the empty string); then the length switch
decodes 7-byte `#RRGGBB` or 4-byte `#RGB` input, computing every channel with
`hexToByte` (which yields 0 and flags the error on a non-hex byte) and
returning the error iff some byte was non-hex or the length was neither 4
nor 7. -/
def hexToRGB (s : List Nat) : HexResult :=
  match s with
  | [] => .crash
  | c0 :: rest =>
    if c0 = 35 then
      match rest with
      | [d1, d2, d3, d4, d5, d6] =>
        let col : RGBA :=
          ⟨(hexVal d1 <<< 4 + hexVal d2) % 256,
           (hexVal d3 <<< 4 + hexVal d4) % 256,
           (hexVal d5 <<< 4 + hexVal d6) % 256, 255⟩
        if isHexByte d1 && isHexByte d2 && isHexByte d3 && isHexByte d4 &&
           isHexByte d5 && isHexByte d6
        then .ok col else .errInvalid col
      | [d1, d2, d3] =>
        let col : RGBA :=
          ⟨hexVal d1 * 17 % 256, hexVal d2 * 17 % 256, hexVal d3 * 17 % 256, 255⟩
        if isHexByte d1 && isHexByte d2 && isHexByte d3
        then .ok col else .errInvalid col
      | _ => .errInvalid ⟨0, 0, 0, 255⟩
    else .errInvalid ⟨0, 0, 0, 255⟩

/-!
## The extraction pattern

`reParseItems = \*\.(color[0-9]{1,2}|foreground|background|cursorColor)+: +(#[a-fA-F0-9]{6})`

Go's `regexp` package uses leftmost-first (Perl-style) match semantics:
the match starting earliest wins, and among matches at that position the one
a backtracking search would find first (earlier alternatives preferred,
greedy repetition preferring more). For a capturing group under `+`, the
reported submatch is the text of the LAST iteration. The model below
hand-compiles this fixed pattern: candidate lists are produced in
backtracking preference order and the first candidate whose continuation
matches is taken.
-/

/-- Drop the literal byte sequence `lit` from the front of `s`; `none` if
`lit` is not a prefix. -/
def dropLit : List Nat → List Nat → Option (List Nat)
  | [], s => some s
  | _, [] => none
  | l :: ls, c :: cs => if c = l then dropLit ls cs else none

/-- Candidates for the alternative `color[0-9]{1,2}` at the front of `s`,
as (consumed, remainder) pairs in preference order (greedy: two digits
before one). -/
def colorCands (s : List Nat) : List (List Nat × List Nat) :=
  match dropLit (kb "color") s with
  | none => []
  | some rest =>
    match rest with
    | d1 :: d2 :: r2 =>
      if isDigit d1 then
        if isDigit d2 then
          [(kb "color" ++ [d1, d2], r2), (kb "color" ++ [d1], d2 :: r2)]
        else [(kb "color" ++ [d1], d2 :: r2)]
      else []
    | [d1] => if isDigit d1 then [(kb "color" ++ [d1], [])] else []
    | [] => []

/-- Candidate for a literal alternative at the front of `s`. -/
def litCand (lit : String) (s : List Nat) : List (List Nat × List Nat) :=
  match dropLit (kb lit) s with
  | some rest => [(kb lit, rest)]
  | none => []

/-- All candidates of the group's single alternative list
`color[0-9]{1,2}|foreground|background|cursorColor` at the front of `s`,
in the pattern's alternation order. -/
def matchAlt (s : List Nat) : List (List Nat × List Nat) :=
  colorCands s ++ litCand "foreground" s ++ litCand "background" s ++
    litCand "cursorColor" s

/-- Candidates for `(alternative)+` at the front of `s`, as (capture of the
last iteration, remainder) pairs in backtracking preference order: greedy,
so continuing with another iteration is preferred to stopping. The fuel
bounds the number of iterations; every iteration consumes at least one byte,
so `s.length + 1` fuel is always enough. -/
def matchPlus : Nat → List Nat → List (List Nat × List Nat)
  | 0, _ => []
  | fuel + 1, s =>
    (matchAlt s).flatMap (fun c => matchPlus fuel c.2 ++ [c])

/-- Consume a maximal run of spaces (byte 32). Used for the greedy ` +`:
since `'#'` is not a space, the only way the continuation can match is after
consuming every space. -/
def eatSpaces : List Nat → List Nat
  | 32 :: rest => eatSpaces rest
  | s => s

/-- Match `#[a-fA-F0-9]{6}` at the front of `s`, returning the capture of
group 2 and the remainder. -/
def matchHex : List Nat → Option (List Nat × List Nat)
  | 35 :: d1 :: d2 :: d3 :: d4 :: d5 :: d6 :: rest =>
    if isHexByte d1 && isHexByte d2 && isHexByte d3 && isHexByte d4 &&
       isHexByte d5 && isHexByte d6
    then some ([35, d1, d2, d3, d4, d5, d6], rest) else none
  | _ => none

/-- Match `: +(#[a-fA-F0-9]{6})` at the front of `s`. -/
def matchTail (s : List Nat) : Option (List Nat × List Nat) :=
  match s with
  | 58 :: 32 :: rest => matchHex (eatSpaces rest)
  | _ => none

/-- Try the whole pattern anchored at the front of `s`; on success return
((group-1 capture, group-2 capture), remainder after the match). `42` and
`46` are `'*'` and `'.'`. -/
def matchAt (fuel : Nat) (s : List Nat) :
    Option ((List Nat × List Nat) × List Nat) :=
  match s with
  | 42 :: 46 :: s2 =>
    (matchPlus fuel s2).findSome? (fun c =>
      match matchTail c.2 with
      | some (hex, rest2) => some ((c.1, hex), rest2)
      | none => none)
  | _ => none

/-- Model of `FindAllStringSubmatch(text, -1)`: scan left to right, at each position
try the pattern; on a match emit the two captures and continue after the
match (matches are non-overlapping), else advance one byte. -/
def findAllAux : Nat → Nat → List Nat → List (List Nat × List Nat)
  | 0, _, _ => []
  | _ + 1, _, [] => []
  | fuel + 1, pfuel, x :: t =>
    match matchAt pfuel (x :: t) with
    | some (p, rest) => p :: findAllAux fuel pfuel rest
    | none => findAllAux fuel pfuel t

/-- All (key, hex) capture pairs of `reParseItems` over `text`, in match
order. Every match of this pattern yields exactly the two capture groups,
so the defensive `len(v) != 3` check in `app` (line 91) can never fire and
is not modelled. -/
def extractPairs (text : List Nat) : List (List Nat × List Nat) :=
  findAllAux (text.length + 1) (text.length + 1) text

/-- The `values` map of `app` (lines 89–96): keys are assigned in match
order, a later assignment overwriting an earlier one, so a lookup returns
the value of the last matching pair. -/
def valLookup (ps : List (List Nat × List Nat)) (k : List Nat) :
    Option (List Nat) :=
  (ps.filter (fun p => p.1 == k)).getLast?.map (fun p => p.2)

/-!
## Name mapping, validation, rendering, and the driver

Go iterates `nameReplacements` (a `map`) in an unspecified order; the model
fixes the source's textual order. Every property proved below is
insensitive to that order: the missing-keys error is characterised by
membership, and the rendered entries are sorted before output under a
comparator on their pairwise-distinct names.
-/

/-- The static `nameReplacements` table (main.go lines 20–40), in source
order. -/
def nameReplacements : List (String × List Nat) :=
  [("foreground", [0, 1]), ("background", [2, 3]), ("cursorColor", [4, 5]),
   ("color0", [6]), ("color8", [7]), ("color1", [8]), ("color9", [9]),
   ("color2", [10]), ("color10", [11]), ("color3", [12]), ("color11", [13]),
   ("color4", [14]), ("color12", [15]), ("color5", [16]), ("color13", [17]),
   ("color6", [18]), ("color14", [19]), ("color7", [20]), ("color15", [21])]

/-- The 19 required key names, in the table's order. -/
def requiredKeyNames : List String :=
  nameReplacements.map (fun p => p.1)

/-- Struct `colormatch` from main.go. -/
structure colormatch where
  name : String
  color : RGBA
deriving DecidableEq, Repr

/-- Method `(*colormatch).getRGB`: `fmt.Sprintf("%d,%d,%d", R, G, B)`. -/
def getRGB (cm : colormatch) : String :=
  toString cm.color.r ++ "," ++ toString cm.color.g ++ "," ++ toString cm.color.b

/-- Go's `%q` on the strings rendered here (`ColourN` names and `R,G,B`
triples, made of letters, digits and commas): double quotes around the
text, no character needing an escape. -/
def goQuote (s : String) : String :=
  "\"" ++ s ++ "\""

/-- One output line (main.go line 137): `fmt.Fprintf(&b, "%q=%q\n", name, rgb)`. -/
def entryLine (cm : colormatch) : String :=
  goQuote cm.name ++ "=" ++ goQuote (getRGB cm)

/-- The output name for slot `m`: `fmt.Sprintf("%s%d", colorPrefix, m)`. -/
def colourName (m : Nat) : String :=
  "Colour" ++ toString m

/-- Go's byte-wise `<` on strings (ASCII here, so bytes = code points). -/
def lexLt : List Nat → List Nat → Bool
  | _, [] => false
  | [], _ :: _ => true
  | a :: as, b :: bs => if a < b then true else if b < a then false else lexLt as bs

/-- Go's `<` on strings, on the byte lists of the two strings. -/
def strLtB (a b : String) : Bool :=
  lexLt (kb a) (kb b)

/-- The comparator of `sort.Slice` (main.go lines 126–128). -/
def nameLt (x y : colormatch) : Bool :=
  strLtB x.name y.name

/-- Insert into a list sorted by `nameLt`. -/
def insertCM (x : colormatch) : List colormatch → List colormatch
  | [] => [x]
  | y :: ys => if nameLt x y then x :: y :: ys else y :: insertCM x ys

/-- Model of `sort.Slice(kvals, less)` with `less i j = kvals[i].name < kvals[j].name`.
`sort.Slice` guarantees a permutation ordered by the comparator; whenever it
runs here the names are pairwise distinct (see `C10`), so that reordering is
unique and an insertion sort computes it. -/
def sortCM : List colormatch → List colormatch
  | [] => []
  | x :: xs => insertCM x (sortCM xs)

/-- The same insertion sort on the name column alone. -/
def insertStr (x : String) : List String → List String
  | [] => [x]
  | y :: ys => if strLtB x y then x :: y :: ys else y :: insertStr x ys

/-- The name column of `sortCM`: the comparator reads only names, so
sorting commutes with projecting the names (`map_name_sortCM`). -/
def sortStr : List String → List String
  | [] => []
  | x :: xs => insertStr x (sortStr xs)

/-- Go's `net/url.PathEscape` keeps ASCII letters, digits, `-._~` (unreserved)
and `$&+:=@` (reserved but allowed in a path segment), and escapes every
other byte as `%XX` with upper-case hex. Modelled per character; session
names considered here are ASCII, where Go's per-UTF-8-byte escaping
coincides with per-character escaping. -/
def isPathSegmentSafe (c : Nat) : Bool :=
  (65 ≤ c && c ≤ 90) || (97 ≤ c && c ≤ 122) || (48 ≤ c && c ≤ 57) ||
  c == 45 || c == 95 || c == 46 || c == 126 ||
  c == 36 || c == 38 || c == 43 || c == 58 || c == 61 || c == 64

/-- Upper-case hex digit character for `n < 16`. -/
def upperHexChar (n : Nat) : Char :=
  if n < 10 then Char.ofNat (48 + n) else Char.ofNat (55 + n)

/-- Escape one character for a path segment. -/
def escapeChar (c : Char) : List Char :=
  if isPathSegmentSafe c.toNat then [c]
  else ['%', upperHexChar (c.toNat / 16 % 16), upperHexChar (c.toNat % 16)]

/-- Model of `url.PathEscape` (see `isPathSegmentSafe`). -/
def pathEscape (s : String) : String :=
  ⟨(s.data.map escapeChar).flatten⟩

/-- The three header lines written before the entries (main.go lines
132–134). -/
def header3 (sname : String) : List String :=
  ["Windows Registry Editor Version 5.00",
   "",
   "[HKEY_CURRENT_USER\\Software\\9bis.com\\KiTTY\\Sessions\\" ++
     pathEscape sname ++ "]"]

/-- The errors `app` can return. The underlying OS error text of
open/read failures is not modelled; the defensive submatch-arity error
(line 91) cannot arise because every match carries exactly two captures. -/
inductive AppErr where
  | usage
  | emptySession
  | openFailed (fname : String)
  | noColors (fname : String)
  | missingKeys (keys : List String)
  | badHex (hex : List Nat)
deriving DecidableEq, Repr

/-- The message of the missing-keys error (main.go line 123):
`"the following keys weren't found in the config file: " + strings.Join(notFoundKeys, ", ")`. -/
def missingKeysMsg (keys : List String) : String :=
  "the following keys weren't found in the config file: " ++
    String.intercalate ", " keys

/-- The key loop of `app` (main.go lines 98–120): for each table entry in
order, a missing key is accumulated into `notFoundKeys` and processing
continues; a present key's hex value is decoded — a decode error aborts the
whole loop — and one `colormatch` per slot index is appended. -/
def collectKeys (values : List (List Nat × List Nat)) :
    List (String × List Nat) → Except AppErr (List String × List colormatch)
  | [] => .ok ([], [])
  | (k, slots) :: rest =>
    match valLookup values (kb k) with
    | none =>
      match collectKeys values rest with
      | .error e => .error e
      | .ok (nf, kv) => .ok (k :: nf, kv)
    | some hex =>
      match hexToRGB hex with
      | .ok c =>
        match collectKeys values rest with
        | .error e => .error e
        | .ok (nf, kv) =>
          .ok (nf, slots.map (fun m => ⟨colourName m, c⟩) ++ kv)
      | _ => .error (.badHex hex)

/-- Function `app` (main.go lines 58–143) as a function of the argument vector
`os.Args[1:]` and the content of the named file (`none`: `os.Open` fails).
On success it returns the lines written to standard output: the final
`Fprintln(os.Stdout, b.String())` prints the buffer — header, one line per
sorted entry — plus a final newline, i.e. a trailing blank line. -/
def app (args : List String) (file : Option (List Nat)) :
    Except AppErr (List String) :=
  match args with
  | [fname, sname] =>
    if sname = "" then .error .emptySession
    else
      match file with
      | none => .error (.openFailed fname)
      | some text =>
        match extractPairs text with
        | [] => .error (.noColors fname)
        | p :: ps =>
          match collectKeys (p :: ps) nameReplacements with
          | .error e => .error e
          | .ok (nf, kvals) =>
            match nf with
            | [] => .ok (header3 sname ++ (sortCM kvals).map entryLine ++ [""])
            | _ :: _ => .error (.missingKeys nf)
  | _ => .error .usage

/-- The lines the process writes to standard output: only a successful
`app` writes there (`main` routes errors to standard error). -/
def runStdoutLines (args : List String) (file : Option (List Nat)) :
    List String :=
  match app args file with
  | .ok lines => lines
  | .error _ => []

/-- The process exit status decided in `main` (lines 51–56). -/
def runExitCode (args : List String) (file : Option (List Nat)) : Nat :=
  match app args file with
  | .ok _ => 0
  | .error _ => 1

/-!
## Derived notions used to state the claims
-/

/-- The shape of every group-2 capture: `'#'` followed by exactly six
hex-digit bytes. -/
def isHex7 (h : List Nat) : Bool :=
  match h with
  | [35, d1, d2, d3, d4, d5, d6] =>
    isHexByte d1 && isHexByte d2 && isHexByte d3 && isHexByte d4 &&
      isHexByte d5 && isHexByte d6
  | _ => false

/-- Membership in the language of the single alternative
`color[0-9]{1,2}|foreground|background|cursorColor` of the capture group. -/
def isAltKey (k : List Nat) : Bool :=
  k == kb "foreground" || k == kb "background" || k == kb "cursorColor" ||
    (match dropLit (kb "color") k with
     | some ds => (ds.length == 1 || ds.length == 2) && ds.all isDigit
     | none => false)

/-- The color a hex value decodes to when decoding succeeds (used only to
express results of `collectKeys`; the default is never reached on the
values `app` feeds in). -/
def decodeD (hex : List Nat) : RGBA :=
  match hexToRGB hex with
  | .ok c => c
  | _ => ⟨0, 0, 0, 0⟩

/-- The required keys whose lookup in the extracted mapping fails, in table
order: the `notFoundKeys` list a full run of the key loop accumulates. -/
def missingOf (values : List (List Nat × List Nat)) : List String :=
  requiredKeyNames.filter (fun k => (valLookup values (kb k)).isNone)

/-- The 22 output names in ascending byte-wise lexicographic order
(`"Colour10"` before `"Colour2"`). -/
def sortedNames : List String :=
  ["Colour0", "Colour1", "Colour10", "Colour11", "Colour12", "Colour13",
   "Colour14", "Colour15", "Colour16", "Colour17", "Colour18", "Colour19",
   "Colour2", "Colour20", "Colour21", "Colour3", "Colour4", "Colour5",
   "Colour6", "Colour7", "Colour8", "Colour9"]

/-- Strict ascending byte-wise lexicographic order of adjacent elements:
the sortedness format of the claim about the rendered name column. -/
def lexSortedB : List (List Nat) → Bool
  | [] => true
  | [_] => true
  | a :: b :: t => lexLt a b && lexSortedB (b :: t)

/-- A complete sample configuration: all 19 required keys with valid 6-digit
hex values (`foreground` deliberately `#1a2b3c`). -/
def wText : List Nat :=
  kb ("*.foreground: #1a2b3c\n*.background: #aabbcc\n*.cursorColor: #aabbcc\n" ++
      "*.color0: #aabbcc\n*.color1: #aabbcc\n*.color2: #aabbcc\n" ++
      "*.color3: #aabbcc\n*.color4: #aabbcc\n*.color5: #aabbcc\n" ++
      "*.color6: #aabbcc\n*.color7: #aabbcc\n*.color8: #aabbcc\n" ++
      "*.color9: #aabbcc\n*.color10: #aabbcc\n*.color11: #aabbcc\n" ++
      "*.color12: #aabbcc\n*.color13: #aabbcc\n*.color14: #aabbcc\n" ++
      "*.color15: #aabbcc\n")

/-- The output of the successful sample run on `wText`. -/
def wOut : List String :=
  runStdoutLines ["theme.txt", "s"] (some wText)

/-- A sample configuration containing only a `color0` assignment. -/
def wTextMissing : List Nat :=
  kb "*.color0: #aabbcc\n"

/-!
## Theorems
-/

theorem hexVal_lt_16 (b : Nat) : hexVal b < 16 := by
  unfold hexVal
  split <;> [omega; skip]
  split <;> [omega; skip]
  split <;> omega

theorem shift4_eq_mul (n : Nat) : n <<< 4 = n * 16 := by
  rw [Nat.shiftLeft_eq]

/-- C3: for `'#'` followed by exactly six hex digits, `hexToRGB` succeeds and
returns the RGB color whose channels are the numeric values of the three
two-digit hex pairs, with alpha `0xff`. -/
theorem C3_hex6_decodes (d1 d2 d3 d4 d5 d6 : Nat)
    (h1 : isHexByte d1 = true) (h2 : isHexByte d2 = true)
    (h3 : isHexByte d3 = true) (h4 : isHexByte d4 = true)
    (h5 : isHexByte d5 = true) (h6 : isHexByte d6 = true) :
    hexToRGB (35 :: [d1, d2, d3, d4, d5, d6]) =
      .ok ⟨hexVal d1 * 16 + hexVal d2,
           hexVal d3 * 16 + hexVal d4,
           hexVal d5 * 16 + hexVal d6, 255⟩ := by
  have m1 := hexVal_lt_16 d1
  have m2 := hexVal_lt_16 d2
  have m3 := hexVal_lt_16 d3
  have m4 := hexVal_lt_16 d4
  have m5 := hexVal_lt_16 d5
  have m6 := hexVal_lt_16 d6
  have e1 : (hexVal d1 <<< 4 + hexVal d2) % 256 = hexVal d1 * 16 + hexVal d2 := by
    rw [shift4_eq_mul]; exact Nat.mod_eq_of_lt (by omega)
  have e2 : (hexVal d3 <<< 4 + hexVal d4) % 256 = hexVal d3 * 16 + hexVal d4 := by
    rw [shift4_eq_mul]; exact Nat.mod_eq_of_lt (by omega)
  have e3 : (hexVal d5 <<< 4 + hexVal d6) % 256 = hexVal d5 * 16 + hexVal d6 := by
    rw [shift4_eq_mul]; exact Nat.mod_eq_of_lt (by omega)
  simp [hexToRGB, h1, h2, h3, h4, h5, h6, e1, e2, e3]

theorem C3_witness : isHexByte 49 = true ∧
    hexToRGB [35, 49, 97, 50, 98, 51, 99] = .ok ⟨26, 43, 60, 255⟩ := by
  refine ⟨by decide, ?_⟩
  have h := C3_hex6_decodes 49 97 50 98 51 99 (by decide) (by decide)
    (by decide) (by decide) (by decide) (by decide)
  exact h.trans (by decide)

/-- C4: for `'#'` followed by exactly three hex digits, `hexToRGB` succeeds
and each channel is the digit's value times 17, with alpha `0xff`. -/
theorem C4_hex3_decodes (d1 d2 d3 : Nat)
    (h1 : isHexByte d1 = true) (h2 : isHexByte d2 = true)
    (h3 : isHexByte d3 = true) :
    hexToRGB (35 :: [d1, d2, d3]) =
      .ok ⟨hexVal d1 * 17, hexVal d2 * 17, hexVal d3 * 17, 255⟩ := by
  have m1 := hexVal_lt_16 d1
  have m2 := hexVal_lt_16 d2
  have m3 := hexVal_lt_16 d3
  have e1 : hexVal d1 * 17 % 256 = hexVal d1 * 17 := Nat.mod_eq_of_lt (by omega)
  have e2 : hexVal d2 * 17 % 256 = hexVal d2 * 17 := Nat.mod_eq_of_lt (by omega)
  have e3 : hexVal d3 * 17 % 256 = hexVal d3 * 17 := Nat.mod_eq_of_lt (by omega)
  simp [hexToRGB, h1, h2, h3, e1, e2, e3]

theorem C4_witness : isHexByte 56 = true ∧
    hexToRGB [35, 56, 97, 50] = .ok ⟨136, 170, 34, 255⟩ := by
  refine ⟨by decide, ?_⟩
  have h := C4_hex3_decodes 56 97 50 (by decide) (by decide) (by decide)
  exact h.trans (by decide)

/-- C5 counterexample: on the empty string, `hexToRGB` does not return the
"invalid format" error the claim asserts; it panics (index out of range on
`s[0]`), modelled by `HexResult.crash`. -/
theorem C5_counterexample :
    hexToRGB [] = .crash ∧ isInvalidFormatError (hexToRGB []) = false := by
  decide

/-- C5 amended: for every NON-empty byte string that does not start with
`'#'`, or whose length is neither 4 nor 7, or that has a non-hex byte in a
digit position, `hexToRGB` returns the "invalid format" error. (On the empty
string the code panics on `s[0]` instead of returning an error.) -/
theorem C5_invalid_rejected (s : List Nat) (hne : s ≠ [])
    (hbad : s.head? ≠ some 35 ∨ (s.length ≠ 4 ∧ s.length ≠ 7) ∨
      ∃ b ∈ s.tail, isHexByte b = false) :
    isInvalidFormatError (hexToRGB s) = true := by
  obtain ⟨c0, rest, rfl⟩ : ∃ c0 rest, s = c0 :: rest := by
    cases s with
    | nil => exact absurd rfl hne
    | cons h t => exact ⟨h, t, rfl⟩
  by_cases hc : c0 = 35
  case neg => simp [hexToRGB, hc, isInvalidFormatError]
  subst hc
  simp only [List.head?_cons, List.tail_cons, List.length_cons] at hbad
  replace hbad : (rest.length ≠ 3 ∧ rest.length ≠ 6) ∨
      ∃ b ∈ rest, isHexByte b = false := by
    rcases hbad with h | h | h
    · exact absurd rfl h
    · left; omega
    · right; exact h
  rcases rest with _ | ⟨a, _ | ⟨b, _ | ⟨c, _ | ⟨d, _ | ⟨e, _ | ⟨f, _ | ⟨g, t⟩⟩⟩⟩⟩⟩⟩
  · rfl
  · rfl
  · rfl
  · rcases hbad with ⟨h3, _⟩ | ⟨x, hx, hxf⟩
    · exact absurd rfl h3
    · have hcond : (isHexByte a && isHexByte b && isHexByte c) = false := by
        simp only [List.mem_cons, List.not_mem_nil, or_false] at hx
        rcases hx with rfl | rfl | rfl <;> simp [hxf]
      simp [hexToRGB, hcond, isInvalidFormatError]
  · rfl
  · rfl
  · rcases hbad with ⟨_, h6⟩ | ⟨x, hx, hxf⟩
    · exact absurd rfl h6
    · have hcond : (isHexByte a && isHexByte b && isHexByte c && isHexByte d &&
          isHexByte e && isHexByte f) = false := by
        simp only [List.mem_cons, List.not_mem_nil, or_false] at hx
        rcases hx with rfl | rfl | rfl | rfl | rfl | rfl <;> simp [hxf]
      simp [hexToRGB, hcond, isInvalidFormatError]
  · rfl

theorem C5_witness : [122, 122] ≠ ([] : List Nat) ∧
    isInvalidFormatError (hexToRGB [122, 122]) = true :=
  ⟨by decide, C5_invalid_rejected [122, 122] (by decide) (Or.inl (by decide))⟩

/-!
### Shape of extracted pairs
-/

theorem findSome?_inv {α β : Type} (f : α → Option β) :
    ∀ (l : List α) (b : β), l.findSome? f = some b → ∃ a ∈ l, f a = some b := by
  intro l
  induction l with
  | nil => intro b h; simp [List.findSome?] at h
  | cons a as ih =>
    intro b h
    rw [List.findSome?_cons] at h
    cases hfa : f a with
    | some b2 =>
      rw [hfa] at h
      exact ⟨a, List.mem_cons_self a as, hfa.trans h⟩
    | none =>
      rw [hfa] at h
      obtain ⟨x, hx, hfx⟩ := ih b h
      exact ⟨x, List.mem_cons_of_mem a hx, hfx⟩

theorem valLookup_mem {ps : List (List Nat × List Nat)} {k v : List Nat}
    (h : valLookup ps k = some v) : (k, v) ∈ ps := by
  unfold valLookup at h
  cases hl : (ps.filter (fun p => p.1 == k)).getLast? with
  | none => rw [hl] at h; simp at h
  | some p =>
    rw [hl] at h
    simp only [Option.map_some', Option.some.injEq] at h
    have hpl : p ∈ (ps.filter (fun p => p.1 == k)).getLast? := by
      rw [hl]; rfl
    obtain ⟨hne, hpg⟩ := List.mem_getLast?_eq_getLast hpl
    have hpf : p ∈ ps.filter (fun p => p.1 == k) := hpg ▸ List.getLast_mem hne
    rw [List.mem_filter] at hpf
    have hk : p.1 = k := by simpa using hpf.2
    have hv : p = (k, v) := by
      rw [Prod.ext_iff]; exact ⟨hk, h⟩
    exact hv ▸ hpf.1

theorem valLookup_nil {k : List Nat} : valLookup [] k = none := rfl

theorem matchHex_isHex7 {s h r : List Nat}
    (heq : matchHex s = some (h, r)) : isHex7 h = true := by
  unfold matchHex at heq
  split at heq
  · split at heq
    · rename_i d1 d2 d3 d4 d5 d6 rest hall
      simp only [Option.some.injEq, Prod.mk.injEq] at heq
      obtain ⟨rfl, rfl⟩ := heq
      simpa [isHex7] using hall
    · exact absurd heq (by simp)
  · exact absurd heq (by simp)

theorem matchTail_isHex7 {s h r : List Nat}
    (heq : matchTail s = some (h, r)) : isHex7 h = true := by
  unfold matchTail at heq
  split at heq
  · exact matchHex_isHex7 heq
  · exact absurd heq (by simp)

theorem dropLit_self_append (l s : List Nat) : dropLit l (l ++ s) = some s := by
  induction l with
  | nil => simp [dropLit]
  | cons a as ih => simp [dropLit, ih]

theorem colorCands_key {s : List Nat} {c : List Nat × List Nat}
    (hc : c ∈ colorCands s) : isAltKey c.1 = true := by
  unfold colorCands at hc
  split at hc
  · exact absurd hc (by simp)
  · split at hc
    · split at hc
      · split at hc
        · rename_i d1 d2 r2 hd1 hd2
          simp only [List.mem_cons, List.not_mem_nil, or_false] at hc
          rcases hc with rfl | rfl
          · simp [isAltKey, dropLit_self_append, hd1, hd2]
          · simp [isAltKey, dropLit_self_append, hd1]
        · rename_i d1 d2 r2 hd1 hd2
          simp only [List.mem_cons, List.not_mem_nil, or_false] at hc
          rcases hc with rfl
          simp [isAltKey, dropLit_self_append, hd1]
      · exact absurd hc (by simp)
    · split at hc
      · rename_i d1 hd1
        simp only [List.mem_cons, List.not_mem_nil, or_false] at hc
        rcases hc with rfl
        simp [isAltKey, dropLit_self_append, hd1]
      · exact absurd hc (by simp)
    · exact absurd hc (by simp)

theorem matchAlt_key {s : List Nat} {c : List Nat × List Nat}
    (hc : c ∈ matchAlt s) : isAltKey c.1 = true := by
  unfold matchAlt at hc
  rw [List.mem_append] at hc
  rcases hc with hc | hc
  · rw [List.mem_append] at hc
    rcases hc with hc | hc
    · rw [List.mem_append] at hc
      rcases hc with hc | hc
      · exact colorCands_key hc
      · unfold litCand at hc
        split at hc
        · simp only [List.mem_cons, List.not_mem_nil, or_false] at hc
          subst hc
          exact (by decide : isAltKey (kb "foreground") = true)
        · exact absurd hc (by simp)
    · unfold litCand at hc
      split at hc
      · simp only [List.mem_cons, List.not_mem_nil, or_false] at hc
        subst hc
        exact (by decide : isAltKey (kb "background") = true)
      · exact absurd hc (by simp)
  · unfold litCand at hc
    split at hc
    · simp only [List.mem_cons, List.not_mem_nil, or_false] at hc
      subst hc
      exact (by decide : isAltKey (kb "cursorColor") = true)
    · exact absurd hc (by simp)

theorem matchPlus_key (fuel : Nat) :
    ∀ (s : List Nat) (c : List Nat × List Nat),
      c ∈ matchPlus fuel s → isAltKey c.1 = true := by
  induction fuel with
  | zero => intro s c h; simp [matchPlus] at h
  | succ fuel ih =>
    intro s c h
    simp only [matchPlus, List.mem_flatMap] at h
    obtain ⟨a, ha, hc⟩ := h
    rw [List.mem_append] at hc
    rcases hc with hc | hc
    · exact ih a.2 c hc
    · have : c = a := by simpa using hc
      exact this ▸ matchAlt_key ha

theorem matchAt_shape {fuel : Nat} {s k h rest : List Nat}
    (heq : matchAt fuel s = some ((k, h), rest)) :
    isAltKey k = true ∧ isHex7 h = true := by
  unfold matchAt at heq
  split at heq
  · obtain ⟨c, hcmem, hfc⟩ := findSome?_inv _ _ _ heq
    split at hfc
    · rename_i hex rest2 htl
      simp only [Option.some.injEq, Prod.mk.injEq] at hfc
      obtain ⟨⟨rfl, rfl⟩, rfl⟩ := hfc
      exact ⟨matchPlus_key fuel _ c hcmem, matchTail_isHex7 htl⟩
    · exact absurd hfc (by simp)
  · exact absurd heq (by simp)

theorem findAllAux_shape (fuel : Nat) :
    ∀ (pfuel : Nat) (s : List Nat) (p : List Nat × List Nat),
      p ∈ findAllAux fuel pfuel s →
      isAltKey p.1 = true ∧ isHex7 p.2 = true := by
  induction fuel with
  | zero => intro pfuel s p h; simp [findAllAux] at h
  | succ fuel ih =>
    intro pfuel s p h
    cases s with
    | nil => simp [findAllAux] at h
    | cons x t =>
      rw [findAllAux] at h
      cases hma : matchAt pfuel (x :: t) with
      | some pr =>
        rw [hma] at h
        obtain ⟨⟨k, hx⟩, rest⟩ := pr
        rw [List.mem_cons] at h
        rcases h with rfl | h
        · exact matchAt_shape hma
        · exact ih pfuel rest p h
      | none =>
        rw [hma] at h
        exact ih pfuel t p h

theorem extractPairs_shape (text : List Nat) (p : List Nat × List Nat)
    (h : p ∈ extractPairs text) : isAltKey p.1 = true ∧ isHex7 p.2 = true :=
  findAllAux_shape _ _ _ p h

theorem extracted_hex_wf {text k v : List Nat}
    (h : valLookup (extractPairs text) k = some v) : isHex7 v = true :=
  (extractPairs_shape text (k, v) (valLookup_mem h)).2

theorem isHex7_decodes {v : List Nat} (h : isHex7 v = true) :
    hexToRGB v = .ok (decodeD v) := by
  unfold isHex7 at h
  split at h
  · simp [hexToRGB, decodeD, h]
  · exact absurd h (by simp)

/-!
### The key loop and the sort
-/

theorem collectKeys_charact (values : List (List Nat × List Nat)) :
    ∀ (reps : List (String × List Nat)) (nf : List String)
      (kv : List colormatch),
      collectKeys values reps = .ok (nf, kv) →
      nf = (reps.map (fun p => p.1)).filter
            (fun k => (valLookup values (kb k)).isNone) ∧
      kv = reps.flatMap (fun p =>
            match valLookup values (kb p.1) with
            | none => []
            | some hex => p.2.map (fun m => ⟨colourName m, decodeD hex⟩)) := by
  intro reps
  induction reps with
  | nil =>
    intro nf kv h
    simp only [collectKeys, Except.ok.injEq, Prod.mk.injEq] at h
    simp [← h.1, ← h.2]
  | cons hd rest ih =>
    obtain ⟨k, slots⟩ := hd
    intro nf kv h
    cases hlk : valLookup values (kb k) with
    | none =>
      simp only [collectKeys, hlk] at h
      cases hrec : collectKeys values rest with
      | error e => rw [hrec] at h; exact absurd h (by simp)
      | ok pr =>
        obtain ⟨nf2, kv2⟩ := pr
        simp only [hrec, Except.ok.injEq, Prod.mk.injEq] at h
        obtain ⟨rfl, rfl⟩ := h.symm
        obtain ⟨hnf, hkv⟩ := ih nf2 kv2 hrec
        constructor
        · simp [hnf, hlk]
        · simp [hkv, hlk]
    | some hex =>
      simp only [collectKeys, hlk] at h
      cases hdec : hexToRGB hex with
      | ok c =>
        simp only [hdec] at h
        cases hrec : collectKeys values rest with
        | error e => rw [hrec] at h; exact absurd h (by simp)
        | ok pr =>
          obtain ⟨nf2, kv2⟩ := pr
          simp only [hrec, Except.ok.injEq, Prod.mk.injEq] at h
          obtain ⟨rfl, rfl⟩ := h.symm
          obtain ⟨hnf, hkv⟩ := ih nf2 kv2 hrec
          have hc : decodeD hex = c := by simp [decodeD, hdec]
          constructor
          · simp [hnf, hlk]
          · simp [hkv, hlk, hc]
      | errInvalid c => simp only [hdec] at h; exact absurd h (by simp)
      | crash => simp only [hdec] at h; exact absurd h (by simp)

theorem collectKeys_total (values : List (List Nat × List Nat))
    (hwf : ∀ p ∈ values, isHex7 p.2 = true) :
    ∀ reps : List (String × List Nat),
      ∃ nf kv, collectKeys values reps = .ok (nf, kv) := by
  intro reps
  induction reps with
  | nil => exact ⟨[], [], rfl⟩
  | cons hd rest ih =>
    obtain ⟨k, slots⟩ := hd
    obtain ⟨nf, kv, hrec⟩ := ih
    cases hlk : valLookup values (kb k) with
    | none =>
      refine ⟨k :: nf, kv, ?_⟩
      simp only [collectKeys, hlk, hrec]
    | some hex =>
      have hhex : isHex7 hex = true := hwf _ (valLookup_mem hlk)
      refine ⟨nf, slots.map (fun m => ⟨colourName m, decodeD hex⟩) ++ kv, ?_⟩
      simp only [collectKeys, hlk, isHex7_decodes hhex, hrec]

theorem mem_insertCM (x y : colormatch) :
    ∀ l : List colormatch, y ∈ insertCM x l ↔ y = x ∨ y ∈ l := by
  intro l
  induction l with
  | nil => simp [insertCM]
  | cons z zs ih =>
    simp only [insertCM]
    split
    · simp [List.mem_cons]
    · simp only [List.mem_cons, ih]
      tauto

theorem mem_sortCM (y : colormatch) :
    ∀ l : List colormatch, y ∈ sortCM l ↔ y ∈ l := by
  intro l
  induction l with
  | nil => simp [sortCM]
  | cons x xs ih =>
    simp only [sortCM, mem_insertCM, ih, List.mem_cons]

theorem map_name_insertCM (x : colormatch) :
    ∀ l : List colormatch,
      (insertCM x l).map (fun cm => cm.name) =
        insertStr x.name (l.map (fun cm => cm.name)) := by
  intro l
  induction l with
  | nil => rfl
  | cons y ys ih =>
    by_cases h : strLtB x.name y.name
    · simp [insertCM, insertStr, nameLt, h]
    · simp [insertCM, insertStr, nameLt, h, ih]

theorem map_name_sortCM :
    ∀ l : List colormatch,
      (sortCM l).map (fun cm => cm.name) = sortStr (l.map (fun cm => cm.name)) := by
  intro l
  induction l with
  | nil => rfl
  | cons x xs ih => simp [sortCM, sortStr, map_name_insertCM, ih]

/-- Inversion of a successful run: the key loop succeeded with an empty
missing list and the output is the header, the sorted rendered entries and
the trailing blank line. -/
theorem app_ok_inv {fname sname : String} {text : List Nat}
    {out : List String}
    (hok : app [fname, sname] (some text) = .ok out) :
    ∃ kv, collectKeys (extractPairs text) nameReplacements = .ok ([], kv) ∧
      out = header3 sname ++ (sortCM kv).map entryLine ++ [""] := by
  simp only [app] at hok
  split at hok
  · exact absurd hok (by simp)
  · split at hok
    · exact absurd hok (by simp)
    · rename_i p ps hpe
      split at hok
      · exact absurd hok (by simp)
      · rename_i nf kv hck
        rcases nf with (_ | ⟨a, l⟩)
        · simp only [Except.ok.injEq] at hok
          exact ⟨kv, by rw [hpe]; exact hck, hok.symm⟩
        · simp at hok

/-!
### Claims about the driver
-/

/-- C8: with an argument count other than 2 the program fails with the
usage error and exit status 1, for every state of the file system; no file
is consulted (the result does not depend on the file) and nothing is
written to standard output. -/
theorem C8_usage_error (args : List String) (file : Option (List Nat))
    (h : args.length ≠ 2) :
    app args file = .error .usage ∧
    runStdoutLines args file = [] ∧
    runExitCode args file = 1 ∧
    (∀ file2 : Option (List Nat), app args file = app args file2) := by
  have happ : ∀ f : Option (List Nat), app args f = .error .usage := by
    intro f
    rcases args with (_ | ⟨a, (_ | ⟨b, (_ | ⟨c, t⟩)⟩)⟩)
    · rfl
    · rfl
    · exact absurd rfl h
    · rfl
  refine ⟨happ file, ?_, ?_, fun f2 => (happ file).trans (happ f2).symm⟩
  · simp [runStdoutLines, happ file]
  · simp [runExitCode, happ file]

theorem C8_witness : ([] : List String).length ≠ 2 ∧
    app [] none = .error .usage :=
  ⟨by decide, (C8_usage_error [] none (by decide)).1⟩

/-- C9: every hex string handed to `hexToRGB` inside `app` was captured by
the extraction pattern, hence is `'#'` followed by exactly six hex digits
and decodes without error; consequently the `badHex` failure branch of
`app` is unreachable. -/
theorem C9_decoder_never_fails :
    (∀ (text : List Nat) (p : List Nat × List Nat), p ∈ extractPairs text →
      isHex7 p.2 = true ∧ hexToRGB p.2 = .ok (decodeD p.2)) ∧
    (∀ (args : List String) (file : Option (List Nat)) (h : List Nat),
      app args file ≠ .error (.badHex h)) := by
  constructor
  · intro text p hp
    have hx := (extractPairs_shape text p hp).2
    exact ⟨hx, isHex7_decodes hx⟩
  · intro args file h hcon
    rcases args with (_ | ⟨a, (_ | ⟨b, (_ | ⟨c, t⟩)⟩)⟩)
    · simp [app] at hcon
    · simp [app] at hcon
    · by_cases hb : b = ""
      · simp [app, hb] at hcon
      · cases file with
        | none => simp [app, hb] at hcon
        | some text =>
          rcases hpe : extractPairs text with (_ | ⟨p, ps⟩)
          · simp [app, hb, hpe] at hcon
          · have hwf : ∀ q ∈ p :: ps, isHex7 q.2 = true := by
              intro q hq
              exact (extractPairs_shape text q (hpe ▸ hq)).2
            obtain ⟨nf, kv, hck⟩ :=
              collectKeys_total (p :: ps) hwf nameReplacements
            rcases nf with (_ | ⟨k2, l2⟩)
            · simp [app, hb, hpe, hck] at hcon
            · simp [app, hb, hpe, hck] at hcon
    · simp [app] at hcon

theorem C9_witness :
    isHex7 (kb "#aabbcc") = true ∧
    hexToRGB (kb "#aabbcc") = .ok (decodeD (kb "#aabbcc")) :=
  C9_decoder_never_fails.1 (kb "*.color0: #aabbcc")
    (kb "color0", kb "#aabbcc") (by decide)

/-- C7 counterexample: the claim says a line whose key token between `*.`
and `:` is not exactly one of the four alternatives never produces an
extracted pair, but the pattern's `(...)+` repetition matches the
concatenation `foregroundbackground` and produces the pair
`("background", "#aabbcc")` (the capture of a repeated group is its last
iteration). -/
theorem C7_counterexample :
    extractPairs (kb "*.foregroundbackground: #aabbcc") =
      [(kb "background", kb "#aabbcc")] ∧
    isAltKey (kb "foregroundbackground") = false := by
  constructor
  · decide
  · decide

/-- C7 amended: every captured key name is one of the four literal
alternatives (it is the last iteration of the repeated group); however a
line whose key token is a concatenation of several alternatives between
`*.` and `:` does produce an extracted pair, capturing the last
alternative of the concatenation. -/
theorem C7_capture_is_alternative (text : List Nat) (p : List Nat × List Nat)
    (hp : p ∈ extractPairs text) : isAltKey p.1 = true :=
  (extractPairs_shape text p hp).1

theorem C7_witness : isAltKey (kb "background") = true :=
  C7_capture_is_alternative (kb "*.foregroundbackground: #aabbcc")
    (kb "background", kb "#aabbcc") (by decide)

/-- C2: whenever, after looking up all 19 required key names, the missing
list is non-empty, the run fails with the single missing-keys error whose
list contains exactly the keys whose lookup failed — all of them, so the
lookup does not stop at the first miss — and nothing is written to
standard output. -/
theorem C2_missing_keys (fname sname : String) (text : List Nat)
    (hs : sname ≠ "")
    (hne : extractPairs text ≠ [])
    (hmiss : ∃ k ∈ requiredKeyNames,
      valLookup (extractPairs text) (kb k) = none) :
    app [fname, sname] (some text) =
      .error (.missingKeys (missingOf (extractPairs text))) ∧
    (∀ k, k ∈ missingOf (extractPairs text) ↔
      (k ∈ requiredKeyNames ∧ valLookup (extractPairs text) (kb k) = none)) ∧
    missingOf (extractPairs text) ≠ [] ∧
    runStdoutLines [fname, sname] (some text) = [] ∧
    runExitCode [fname, sname] (some text) = 1 := by
  have hwf : ∀ q ∈ extractPairs text, isHex7 q.2 = true := by
    intro q hq
    exact (extractPairs_shape text q hq).2
  obtain ⟨nf, kv, hck⟩ := collectKeys_total _ hwf nameReplacements
  have hnf : nf = missingOf (extractPairs text) := by
    have := (collectKeys_charact _ _ _ _ hck).1
    simpa [missingOf, requiredKeyNames] using this
  have hmem : ∀ k, k ∈ missingOf (extractPairs text) ↔
      (k ∈ requiredKeyNames ∧ valLookup (extractPairs text) (kb k) = none) := by
    intro k
    simp [missingOf, List.mem_filter, Option.isNone_iff_eq_none]
  have hne2 : missingOf (extractPairs text) ≠ [] := by
    obtain ⟨k, hk, hkn⟩ := hmiss
    exact List.ne_nil_of_mem ((hmem k).2 ⟨hk, hkn⟩)
  obtain ⟨p, ps, hpe⟩ : ∃ p ps, extractPairs text = p :: ps := by
    rcases hx : extractPairs text with (_ | ⟨p, ps⟩)
    · exact absurd hx hne
    · exact ⟨p, ps, rfl⟩
  rw [hpe] at hck
  have happ : app [fname, sname] (some text) =
      .error (.missingKeys (missingOf (extractPairs text))) := by
    rw [← hnf]
    rcases nf with (_ | ⟨k2, l2⟩)
    · exact absurd hnf.symm hne2
    · simp [app, hs, hpe, hck]
  exact ⟨happ, hmem, hne2,
    by simp [runStdoutLines, happ],
    by simp [runExitCode, happ]⟩

theorem C2_witness :
    ("s" : String) ≠ "" ∧
    extractPairs wTextMissing ≠ [] ∧
    app ["theme.txt", "s"] (some wTextMissing) =
      .error (.missingKeys (missingOf (extractPairs wTextMissing))) := by
  refine ⟨by decide, by decide, ?_⟩
  exact (C2_missing_keys "theme.txt" "s" wTextMissing (by decide) (by decide)
    ⟨"foreground", by decide, by decide⟩).1

/-- C6: in every successful run whose extracted `foreground` assignment is
`#1a2b3c`, the output contains both `"Colour0"="26,43,60"` and
`"Colour1"="26,43,60"`: the key `foreground` maps to the two output slots
0 and 1 and both receive the same decoded color. -/
theorem C6_foreground_two_slots (fname sname : String) (text : List Nat)
    (out : List String)
    (hok : app [fname, sname] (some text) = .ok out)
    (hfg : valLookup (extractPairs text) (kb "foreground") =
      some (kb "#1a2b3c")) :
    "\"Colour0\"=\"26,43,60\"" ∈ out ∧ "\"Colour1\"=\"26,43,60\"" ∈ out := by
  obtain ⟨kv, hck, hout⟩ := app_ok_inv hok
  have hkv := (collectKeys_charact _ _ _ _ hck).2
  have hmem : ∀ m ∈ [0, 1],
      (⟨colourName m, decodeD (kb "#1a2b3c")⟩ : colormatch) ∈ kv := by
    intro m hm
    rw [hkv, List.mem_flatMap]
    refine ⟨("foreground", [0, 1]), by simp [nameReplacements], ?_⟩
    simp only [hfg]
    exact List.mem_map_of_mem _ hm
  have hline : ∀ m ∈ [0, 1],
      entryLine ⟨colourName m, decodeD (kb "#1a2b3c")⟩ ∈ out := by
    intro m hm
    rw [hout]
    refine List.mem_append_left _ (List.mem_append_right _ ?_)
    exact List.mem_map_of_mem entryLine ((mem_sortCM _ kv).2 (hmem m hm))
  constructor
  · have := hline 0 (by decide)
    rwa [show entryLine ⟨colourName 0, decodeD (kb "#1a2b3c")⟩ =
      "\"Colour0\"=\"26,43,60\"" from rfl] at this
  · have := hline 1 (by decide)
    rwa [show entryLine ⟨colourName 1, decodeD (kb "#1a2b3c")⟩ =
      "\"Colour1\"=\"26,43,60\"" from rfl] at this

set_option maxRecDepth 100000 in
theorem C6_witness :
    "\"Colour0\"=\"26,43,60\"" ∈ wOut ∧ "\"Colour1\"=\"26,43,60\"" ∈ wOut :=
  C6_foreground_two_slots "theme.txt" "s" wText wOut (by rfl) (by rfl)

set_option maxHeartbeats 2000000 in
/-- C1: when the input text yields a valid 6-digit hex assignment for every
one of the 19 required key names (i.e. each required key is present in the
extracted mapping) and the session name is non-empty, the run succeeds
(exit status 0) and standard output is exactly the 3-line header, then 22
lines `"ColourN"="R,G,B"`, in ascending byte-wise lexicographic order of
the quoted names (`"Colour10"` before `"Colour2"`), then a trailing blank
line. -/
theorem C1_success_output (fname sname : String) (text : List Nat)
    (hs : sname ≠ "")
    (hall : ∀ k ∈ requiredKeyNames,
      ∃ v, valLookup (extractPairs text) (kb k) = some v) :
    ∃ kv : List colormatch,
      app [fname, sname] (some text) =
        .ok (header3 sname ++ kv.map entryLine ++ [""]) ∧
      kv.map (fun cm => cm.name) = sortedNames ∧
      sortedNames.length = 22 ∧
      (header3 sname).length = 3 ∧
      lexSortedB (sortedNames.map (fun n => kb (goQuote n))) = true ∧
      runExitCode [fname, sname] (some text) = 0 := by
  obtain ⟨v1, h1⟩ := hall "foreground" (by decide)
  obtain ⟨v2, h2⟩ := hall "background" (by decide)
  obtain ⟨v3, h3⟩ := hall "cursorColor" (by decide)
  obtain ⟨v4, h4⟩ := hall "color0" (by decide)
  obtain ⟨v5, h5⟩ := hall "color8" (by decide)
  obtain ⟨v6, h6⟩ := hall "color1" (by decide)
  obtain ⟨v7, h7⟩ := hall "color9" (by decide)
  obtain ⟨v8, h8⟩ := hall "color2" (by decide)
  obtain ⟨v9, h9⟩ := hall "color10" (by decide)
  obtain ⟨v10, h10⟩ := hall "color3" (by decide)
  obtain ⟨v11, h11⟩ := hall "color11" (by decide)
  obtain ⟨v12, h12⟩ := hall "color4" (by decide)
  obtain ⟨v13, h13⟩ := hall "color12" (by decide)
  obtain ⟨v14, h14⟩ := hall "color5" (by decide)
  obtain ⟨v15, h15⟩ := hall "color13" (by decide)
  obtain ⟨v16, h16⟩ := hall "color6" (by decide)
  obtain ⟨v17, h17⟩ := hall "color14" (by decide)
  obtain ⟨v18, h18⟩ := hall "color7" (by decide)
  obtain ⟨v19, h19⟩ := hall "color15" (by decide)
  have hwf : ∀ q ∈ extractPairs text, isHex7 q.2 = true := by
    intro q hq
    exact (extractPairs_shape text q hq).2
  obtain ⟨nf, kv2, hck⟩ := collectKeys_total _ hwf nameReplacements
  obtain ⟨hnf, hkv⟩ := collectKeys_charact _ _ _ _ hck
  have hnfnil : nf = [] := by
    rw [hnf]
    refine List.filter_eq_nil_iff.mpr ?_
    intro k hk
    obtain ⟨v, hv⟩ := hall k hk
    simp [hv]
  have hKV : kv2 =
      [⟨colourName 0, decodeD v1⟩, ⟨colourName 1, decodeD v1⟩,
       ⟨colourName 2, decodeD v2⟩, ⟨colourName 3, decodeD v2⟩,
       ⟨colourName 4, decodeD v3⟩, ⟨colourName 5, decodeD v3⟩,
       ⟨colourName 6, decodeD v4⟩, ⟨colourName 7, decodeD v5⟩,
       ⟨colourName 8, decodeD v6⟩, ⟨colourName 9, decodeD v7⟩,
       ⟨colourName 10, decodeD v8⟩, ⟨colourName 11, decodeD v9⟩,
       ⟨colourName 12, decodeD v10⟩, ⟨colourName 13, decodeD v11⟩,
       ⟨colourName 14, decodeD v12⟩, ⟨colourName 15, decodeD v13⟩,
       ⟨colourName 16, decodeD v14⟩, ⟨colourName 17, decodeD v15⟩,
       ⟨colourName 18, decodeD v16⟩, ⟨colourName 19, decodeD v17⟩,
       ⟨colourName 20, decodeD v18⟩, ⟨colourName 21, decodeD v19⟩] := by
    rw [hkv]
    simp [nameReplacements, h1, h2, h3, h4, h5, h6, h7, h8, h9, h10, h11,
      h12, h13, h14, h15, h16, h17, h18, h19]
  obtain ⟨p, ps, hpe⟩ : ∃ p ps, extractPairs text = p :: ps := by
    rcases hx : extractPairs text with (_ | ⟨p, ps⟩)
    · rw [hx] at h1; exact absurd h1 (by simp [valLookup])
    · exact ⟨p, ps, rfl⟩
  rw [hpe, hnfnil] at hck
  have happ : app [fname, sname] (some text) =
      .ok (header3 sname ++ (sortCM kv2).map entryLine ++ [""]) := by
    simp [app, hs, hpe, hck]
  refine ⟨sortCM kv2, happ, ?_, by decide, rfl, by decide,
    by simp [runExitCode, happ]⟩
  rw [hKV, map_name_sortCM]
  simp only [List.map_cons, List.map_nil]
  decide

set_option maxRecDepth 100000 in
set_option maxHeartbeats 2000000 in
theorem C1_witness :
    ∃ kv : List colormatch,
      app ["theme.txt", "s"] (some wText) =
        .ok (header3 "s" ++ kv.map entryLine ++ [""]) ∧
      kv.map (fun cm => cm.name) = sortedNames ∧
      sortedNames.length = 22 ∧
      (header3 "s").length = 3 ∧
      lexSortedB (sortedNames.map (fun n => kb (goQuote n))) = true ∧
      runExitCode ["theme.txt", "s"] (some wText) = 0 := by
  refine C1_success_output "theme.txt" "s" wText (by decide) ?_
  intro k hk
  fin_cases hk
  · exact ⟨kb "#1a2b3c", by decide⟩
  · exact ⟨kb "#aabbcc", by decide⟩
  · exact ⟨kb "#aabbcc", by decide⟩
  · exact ⟨kb "#aabbcc", by decide⟩
  · exact ⟨kb "#aabbcc", by decide⟩
  · exact ⟨kb "#aabbcc", by decide⟩
  · exact ⟨kb "#aabbcc", by decide⟩
  · exact ⟨kb "#aabbcc", by decide⟩
  · exact ⟨kb "#aabbcc", by decide⟩
  · exact ⟨kb "#aabbcc", by decide⟩
  · exact ⟨kb "#aabbcc", by decide⟩
  · exact ⟨kb "#aabbcc", by decide⟩
  · exact ⟨kb "#aabbcc", by decide⟩
  · exact ⟨kb "#aabbcc", by decide⟩
  · exact ⟨kb "#aabbcc", by decide⟩
  · exact ⟨kb "#aabbcc", by decide⟩
  · exact ⟨kb "#aabbcc", by decide⟩
  · exact ⟨kb "#aabbcc", by decide⟩
  · exact ⟨kb "#aabbcc", by decide⟩

/-- When every required key is found, the name column of the key loop's
entry list is `Colour0 … Colour21` in table order. -/
theorem kv_names_of_allfound (V : List (List Nat × List Nat))
    (hall : ∀ k ∈ requiredKeyNames, ∃ v, valLookup V (kb k) = some v)
    (kv : List colormatch)
    (hkv : kv = nameReplacements.flatMap (fun p =>
      match valLookup V (kb p.1) with
      | none => []
      | some hex => p.2.map (fun m => ⟨colourName m, decodeD hex⟩))) :
    kv.map (fun cm => cm.name) =
      [colourName 0, colourName 1, colourName 2, colourName 3, colourName 4,
       colourName 5, colourName 6, colourName 7, colourName 8, colourName 9,
       colourName 10, colourName 11, colourName 12, colourName 13,
       colourName 14, colourName 15, colourName 16, colourName 17,
       colourName 18, colourName 19, colourName 20, colourName 21] := by
  obtain ⟨v1, h1⟩ := hall "foreground" (by decide)
  obtain ⟨v2, h2⟩ := hall "background" (by decide)
  obtain ⟨v3, h3⟩ := hall "cursorColor" (by decide)
  obtain ⟨v4, h4⟩ := hall "color0" (by decide)
  obtain ⟨v5, h5⟩ := hall "color8" (by decide)
  obtain ⟨v6, h6⟩ := hall "color1" (by decide)
  obtain ⟨v7, h7⟩ := hall "color9" (by decide)
  obtain ⟨v8, h8⟩ := hall "color2" (by decide)
  obtain ⟨v9, h9⟩ := hall "color10" (by decide)
  obtain ⟨v10, h10⟩ := hall "color3" (by decide)
  obtain ⟨v11, h11⟩ := hall "color11" (by decide)
  obtain ⟨v12, h12⟩ := hall "color4" (by decide)
  obtain ⟨v13, h13⟩ := hall "color12" (by decide)
  obtain ⟨v14, h14⟩ := hall "color5" (by decide)
  obtain ⟨v15, h15⟩ := hall "color13" (by decide)
  obtain ⟨v16, h16⟩ := hall "color6" (by decide)
  obtain ⟨v17, h17⟩ := hall "color14" (by decide)
  obtain ⟨v18, h18⟩ := hall "color7" (by decide)
  obtain ⟨v19, h19⟩ := hall "color15" (by decide)
  rw [hkv]
  simp [nameReplacements, h1, h2, h3, h4, h5, h6, h7, h8, h9, h10, h11,
    h12, h13, h14, h15, h16, h17, h18, h19]

/-- C10: the slot-index lists of the static table are pairwise disjoint
and together are exactly `0 … 21`; consequently every successful run's 22
rendered entries carry each output name `Colour0 … Colour21` exactly once
(no duplicates, no gaps). -/
theorem C10_slots_partition :
    (List.Pairwise (fun a b => ∀ n ∈ a, n ∉ b)
        (nameReplacements.map (fun p => p.2)) ∧
      (nameReplacements.map (fun p => p.2)).flatten.Perm (List.range 22)) ∧
    (∀ (fname sname : String) (text : List Nat) (out : List String),
      app [fname, sname] (some text) = .ok out →
      ∃ kv : List colormatch,
        out = header3 sname ++ kv.map entryLine ++ [""] ∧
        kv.length = 22 ∧
        (∀ n, n < 22 →
          (kv.map (fun cm => cm.name)).count (colourName n) = 1)) := by
  constructor
  · exact ⟨by decide, by decide⟩
  · intro fname sname text out hok
    obtain ⟨kv, hck, hout⟩ := app_ok_inv hok
    obtain ⟨hnf, hkv⟩ := collectKeys_charact _ _ _ _ hck
    have hall : ∀ k ∈ requiredKeyNames,
        ∃ v, valLookup (extractPairs text) (kb k) = some v := by
      intro k hk
      have hfil := List.filter_eq_nil_iff.mp hnf.symm k hk
      cases hx : valLookup (extractPairs text) (kb k) with
      | none => rw [hx] at hfil; simp at hfil
      | some v => exact ⟨v, rfl⟩
    have hnames := kv_names_of_allfound _ hall kv hkv
    have hsorted : (sortCM kv).map (fun cm => cm.name) =
        sortStr [colourName 0, colourName 1, colourName 2, colourName 3,
          colourName 4, colourName 5, colourName 6, colourName 7,
          colourName 8, colourName 9, colourName 10, colourName 11,
          colourName 12, colourName 13, colourName 14, colourName 15,
          colourName 16, colourName 17, colourName 18, colourName 19,
          colourName 20, colourName 21] := by
      rw [map_name_sortCM, hnames]
    refine ⟨sortCM kv, hout, ?_, ?_⟩
    · have hlen := congrArg List.length hsorted
      rw [List.length_map] at hlen
      exact hlen.trans (by decide)
    · intro n hn
      rw [hsorted]
      interval_cases n <;> decide

set_option maxRecDepth 100000 in
set_option maxHeartbeats 1000000 in
theorem C10_witness :
    ∃ kv : List colormatch,
      wOut = header3 "s" ++ kv.map entryLine ++ [""] ∧
      kv.length = 22 ∧
      (∀ n, n < 22 →
        (kv.map (fun cm => cm.name)).count (colourName n) = 1) :=
  C10_slots_partition.2 "theme.txt" "s" wText wOut (by rfl)

end UrxvtKitty
